import Mathlib

/-!
Verification of the subtitle-addon pipeline (stremio-subs-ro).

This file shallowly embeds the parts of the program that the specification
claims talk about: archive type detection and entry listing/extraction
(lib/archiveUtils.js), the match scorer and episode matcher (lib/matcher.js),
the per-credential rate limiter's retry classification (lib/rateLimiter.js),
the caption transcoder and LRU caption cache (lib/proxy.js), and the
fetch-coordination maps of the subtitles handler (addon.js).

External npm dependencies (adm-zip, node-unrar-js, fuzzball, iconv-lite,
jschardet, axios) are modelled abstractly: archives carry their parsed entry
list, the fuzzy similarity is a function parameter bounded by 100, and
network / decoding outcomes are explicit inputs.  JavaScript strings are
modelled as Lean strings with ASCII case folding; machine integers do not
overflow in the modelled ranges, so Nat is used throughout.
-/

set_option autoImplicit false

namespace SubsRo

/-! ## Generic JS-style string helpers -/

/-- ASCII lower-casing of one character (JS toLowerCase on the ASCII range). -/
def jsLowerChar (c : Char) : Char := c.toLower

/-- ASCII upper-casing of one character (JS toUpperCase on the ASCII range). -/
def jsUpperChar (c : Char) : Char := c.toUpper

/-- Lower-case a character list. -/
def lowerL (l : List Char) : List Char := l.map jsLowerChar

/-- Upper-case a character list. -/
def upperL (l : List Char) : List Char := l.map jsUpperChar

/-- Decimal digit test (JS regex d class). -/
def isDig (c : Char) : Bool := c.isDigit

/-- JS regex word character (ASCII letters, digits, underscore). -/
def isWordChar (c : Char) : Bool :=
  (c ≥ 'a' && c ≤ 'z') || (c ≥ 'A' && c ≤ 'Z') || (c ≥ '0' && c ≤ '9') || c = '_'

/-- JS regex whitespace, restricted to its ASCII members. -/
def isJsWs (c : Char) : Bool :=
  c = ' ' || c = '\t' || c = '\n' || c = '\r' || c = '\x0b' || c = '\x0c'

/-- Does `pat` occur as a prefix of `l`?  Computable prefix test. -/
def isPre (pat l : List Char) : Bool :=
  match pat, l with
  | [], _ => true
  | _ :: _, [] => false
  | p :: ps, c :: cs => p = c && isPre ps cs

/-- Does `pat` occur as a contiguous substring of `l` (JS String.includes)? -/
def hasSub (pat l : List Char) : Bool :=
  match l with
  | [] => isPre pat []
  | _ :: cs => isPre pat l || hasSub pat cs

/-- JS String.endsWith on character lists. -/
def endsWith (pat l : List Char) : Bool := isPre (pat.reverse) (l.reverse)

/-- String.includes lifted to Lean strings. -/
def strIncludes (pat s : String) : Bool := hasSub pat.toList s.toList

/-- All (prev-char, suffix) positions of a list, in left-to-right order:
the first element is (none, whole list), then each position carries the
character immediately before it.  Used to evaluate JS regexes that need
word-boundary context. -/
def tailsP : Option Char → List Char → List (Option Char × List Char)
  | p, [] => [(p, [])]
  | p, c :: cs => (p, c :: cs) :: tailsP (some c) cs

/-- `existsPos t f` : some regex-match attempt `f` succeeds at some position
of `t` (with its preceding character supplied). -/
def existsPos (t : List Char) (f : Option Char → List Char → Bool) : Bool :=
  (tailsP none t).any fun pc => f pc.1 pc.2

/-- Consume the literal `lit` from the front, returning the rest. -/
def litP (lit u : List Char) : Option (List Char) :=
  if isPre lit u then some (u.drop lit.length) else none

/-- Consume a maximal whitespace run (JS s*). -/
def wsStar (u : List Char) : List Char := u.dropWhile isJsWs

/-- JS word-boundary test between two optional adjacent characters. -/
def jsBoundary (a b : Option Char) : Bool :=
  (a.elim false isWordChar) != (b.elim false isWordChar)

/-- Boundary after a match whose last consumed character is a word
character: the next character must be absent or not a word character. -/
def boundAfterWord (u : List Char) : Bool :=
  match u with
  | [] => true
  | c :: _ => !isWordChar c

/-! ## ArchiveCodec (lib/archiveUtils.js) -/

inductive ArchiveType where
  | zip
  | rar
  deriving DecidableEq, Repr

/-- One parsed archive entry, as the external zip/rar parsers expose it:
a path, a directory flag, and the raw bytes of its content. -/
structure ArcEntry where
  name : String
  isDirectory : Bool
  content : List Nat
  deriving DecidableEq, Repr

/-- A downloaded archive buffer: its raw leading bytes (for signature
sniffing) together with the entry list the external parser yields for it. -/
structure ArchiveBuffer where
  bytes : List Nat
  entries : List ArcEntry
  deriving DecidableEq, Repr

/-- JS `buffer[i]`: out-of-range access yields undefined, which compares
unequal to every byte; modelled as an Option. -/
def byteAt (b : List Nat) (i : Nat) : Option Nat := b.get? i

/-- getArchiveType from lib/archiveUtils.js: PK signature means zip, an
`R a r` prefix means rar, anything else falls back to zip. -/
def getArchiveType (b : List Nat) : ArchiveType :=
  if byteAt b 0 = some 0x50 && byteAt b 1 = some 0x4b then .zip
  else if byteAt b 0 = some 0x52 && byteAt b 1 = some 0x61 && byteAt b 2 = some 0x72 then .rar
  else .zip

/-- The filter applied by listSrtsFromZip: not a directory, not macOS
metadata, and a name ending (case-insensitively) in ".srt". -/
def zipKeep (e : ArcEntry) : Bool :=
  !e.isDirectory && !strIncludes "__MACOSX" e.name
    && endsWith ".srt".toList (lowerL e.name.toList)

/-- The filter applied by listSrtsFromRar (same tests, different order). -/
def rarKeep (e : ArcEntry) : Bool :=
  !e.isDirectory && endsWith ".srt".toList (lowerL e.name.toList)
    && !strIncludes "__MACOSX" e.name

/-- listSrtsFromZip: filter the zip entry list and keep the names. -/
def listSrtsFromZip (a : ArchiveBuffer) : List String :=
  (a.entries.filter zipKeep).map ArcEntry.name

/-- listSrtsFromRar: filter the rar file headers and keep the names. -/
def listSrtsFromRar (a : ArchiveBuffer) : List String :=
  (a.entries.filter rarKeep).map ArcEntry.name

/-- listSrtFiles: dispatch on the sniffed container type. -/
def listSrtFiles (a : ArchiveBuffer) : List String :=
  match getArchiveType a.bytes with
  | .rar => listSrtsFromRar a
  | .zip => listSrtsFromZip a

/-- zip.getEntry + getData: the first entry with exactly this name, or a
not-found signal. -/
def extractSrtFromZip (a : ArchiveBuffer) (p : String) : Option (List Nat) :=
  (a.entries.find? fun e => e.name = p).map ArcEntry.content

/-- rar extractor.extract on one requested path: the matching entry's
extracted bytes, or a not-found signal when nothing was extracted. -/
def extractSrtFromRar (a : ArchiveBuffer) (p : String) : Option (List Nat) :=
  (a.entries.find? fun e => e.name = p).map ArcEntry.content

/-- extractSrtFile: dispatch on the sniffed container type. -/
def extractSrtFile (a : ArchiveBuffer) (p : String) : Option (List Nat) :=
  match getArchiveType a.bytes with
  | .rar => extractSrtFromRar a p
  | .zip => extractSrtFromZip a p

/-- The claim's reading of detectKind, as stated: zip for a PK prefix, rar
for the full four-byte `R a r !` signature, zip otherwise. -/
def claimedKind (b : List Nat) : ArchiveType :=
  if byteAt b 0 = some 0x50 && byteAt b 1 = some 0x4b then .zip
  else if byteAt b 0 = some 0x52 && byteAt b 1 = some 0x61 && byteAt b 2 = some 0x72
      && byteAt b 3 = some 0x21 then .rar
  else .zip

/-- The amended reading: rar already on the three-byte `R a r` prefix. -/
def amendedKind (b : List Nat) : ArchiveType :=
  if byteAt b 0 = some 0x50 && byteAt b 1 = some 0x4b then .zip
  else if byteAt b 0 = some 0x52 && byteAt b 1 = some 0x61 && byteAt b 2 = some 0x72 then .rar
  else .zip

/-- The caption-entry filter common to both containers: a non-directory
entry, name ending in ".srt" case-insensitively, outside macOS metadata. -/
def captionKeep (e : ArcEntry) : Bool :=
  !e.isDirectory && endsWith ".srt".toList (lowerL e.name.toList)
    && !strIncludes "__MACOSX" e.name

theorem zipKeep_eq_captionKeep (e : ArcEntry) : zipKeep e = captionKeep e := by
  simp only [zipKeep, captionKeep, Bool.and_assoc]
  cases e.isDirectory <;>
    cases h1 : strIncludes "__MACOSX" e.name <;>
      cases h2 : endsWith ".srt".toList (lowerL e.name.toList) <;> simp

theorem rarKeep_eq_captionKeep (e : ArcEntry) : rarKeep e = captionKeep e := by
  simp only [rarKeep, captionKeep]

theorem extractSrtFile_eq_find (a : ArchiveBuffer) (p : String) :
    extractSrtFile a p = (a.entries.find? fun e => e.name = p).map ArcEntry.content := by
  unfold extractSrtFile
  cases getArchiveType a.bytes <;> rfl

theorem find_name_of_nodup (p : String) :
    ∀ (l : List ArcEntry), (l.map ArcEntry.name).Nodup →
      ∀ e ∈ l, e.name = p → l.find? (fun x => x.name = p) = some e := by
  intro l
  induction l with
  | nil => intro _ e he; exact absurd he (List.not_mem_nil e)
  | cons x xs ih =>
    intro hnd e he hp
    rcases List.mem_cons.mp he with rfl | hxs
    · simp [List.find?, hp]
    · have hx : x.name ≠ p := by
        intro hxp
        have hnotin : x.name ∉ xs.map ArcEntry.name := (List.nodup_cons.mp hnd).1
        exact hnotin (hxp ▸ hp ▸ List.mem_map_of_mem ArcEntry.name hxs)
      have : (x.name = p : Bool) = false := by simp [hx]
      simp only [List.find?, this]
      exact ih (List.nodup_cons.mp hnd).2 e hxs hp

/-- C6: for either container kind, listSrtFiles returns exactly the names of
the non-directory ".srt" entries outside `__MACOSX`; extractSrtFile on any
returned path yields that entry's original bytes, and on a path that names
no entry it yields the not-found signal. -/
theorem listSrtFiles_extractSrtFile_spec (a : ArchiveBuffer)
    (hnd : (a.entries.map ArcEntry.name).Nodup) :
    listSrtFiles a = (a.entries.filter captionKeep).map ArcEntry.name
    ∧ (∀ p ∈ listSrtFiles a, ∃ e, e ∈ a.entries ∧ e.name = p ∧ captionKeep e = true
        ∧ extractSrtFile a p = some e.content)
    ∧ (∀ p : String, (∀ e ∈ a.entries, e.name ≠ p) → extractSrtFile a p = none) := by
  have hlist : listSrtFiles a = (a.entries.filter captionKeep).map ArcEntry.name := by
    unfold listSrtFiles
    cases getArchiveType a.bytes with
    | rar =>
      unfold listSrtsFromRar
      rw [List.filter_congr fun e _ => rarKeep_eq_captionKeep e]
    | zip =>
      unfold listSrtsFromZip
      rw [List.filter_congr fun e _ => zipKeep_eq_captionKeep e]
  refine ⟨hlist, ?_, ?_⟩
  · intro p hp
    rw [hlist] at hp
    obtain ⟨e, he, hname⟩ := List.mem_map.mp hp
    have hmem : e ∈ a.entries := List.mem_of_mem_filter he
    refine ⟨e, hmem, hname, List.of_mem_filter he, ?_⟩
    rw [extractSrtFile_eq_find, find_name_of_nodup p a.entries hnd e hmem hname]
    rfl
  · intro p hnone
    rw [extractSrtFile_eq_find]
    have : a.entries.find? (fun e => e.name = p) = none := by
      apply List.find?_eq_none.mpr
      intro e he
      simp [hnone e he]
    rw [this]
    rfl

/-- The zip fixture of the spec's testable property: one caption entry and
one non-caption entry. -/
def fixtureZip : ArchiveBuffer :=
  { bytes := [0x50, 0x4b, 3, 4]
    entries := [
      { name := "a.srt", isDirectory := false, content := [104, 101, 108, 108, 111] },
      { name := "readme.txt", isDirectory := false, content := [120] }] }

/-- The rar fixture: same entries behind a rar signature. -/
def fixtureRar : ArchiveBuffer :=
  { bytes := [0x52, 0x61, 0x72, 0x21]
    entries := [
      { name := "a.srt", isDirectory := false, content := [104, 101, 108, 108, 111] },
      { name := "readme.txt", isDirectory := false, content := [120] }] }

/-- C6 witness: the spec's zip and rar fixtures, listed and extracted. -/
theorem listSrtFiles_extractSrtFile_spec_witness :
    listSrtFiles fixtureZip = ["a.srt"]
    ∧ extractSrtFile fixtureZip "a.srt" = some [104, 101, 108, 108, 111]
    ∧ extractSrtFile fixtureZip "missing.srt" = none
    ∧ listSrtFiles fixtureRar = ["a.srt"]
    ∧ extractSrtFile fixtureRar "a.srt" = some [104, 101, 108, 108, 111] := by
  obtain ⟨hz1, _, hz3⟩ := listSrtFiles_extractSrtFile_spec fixtureZip (by decide)
  obtain ⟨hr1, _, _⟩ := listSrtFiles_extractSrtFile_spec fixtureRar (by decide)
  refine ⟨by rw [hz1]; decide, by decide, hz3 "missing.srt" (by decide),
    by rw [hr1]; decide, by decide⟩

/-- C7 counterexample: a buffer whose first three bytes are `R a r` but whose
fourth byte is not the bang of the full signature is classified rar by the
code, while the claim as stated (rar only on the `R a r !` signature, zip
otherwise) classifies it zip. -/
theorem getArchiveType_rar_prefix_counterexample :
    getArchiveType [0x52, 0x61, 0x72, 0x00] = ArchiveType.rar
    ∧ claimedKind [0x52, 0x61, 0x72, 0x00] = ArchiveType.zip
    ∧ getArchiveType [0x52, 0x61, 0x72, 0x00] ≠ claimedKind [0x52, 0x61, 0x72, 0x00] := by
  decide

/-- C7 amended: detectKind classifies PK-prefixed buffers as zip, buffers
whose first three bytes are `R a r` as rar, and every other buffer —
including buffers too short for any signature — as zip; it is total. -/
theorem getArchiveType_spec (b : List Nat) : getArchiveType b = amendedKind b :=
  rfl

/-! ## MatchScorer (lib/matcher.js) -/

/-- String lower-casing. -/
def strLower (s : String) : String := String.mk (lowerL s.toList)

/-- String upper-casing. -/
def strUpper (s : String) : String := String.mk (upperL s.toList)

/-- Character class of the dash release-group pattern: lowercase letter or
digit. -/
def isLD (c : Char) : Bool := (c ≥ 'a' && c ≤ 'z') || isDig c

/-- Character class of the bracket release-group pattern: lowercase letter,
digit, or dot. -/
def isLDdot (c : Char) : Bool := isLD c || c = '.'

/-- Strip a trailing `.ext` (alphanumeric extension) as the regex in
getReleaseGroup does; no change when the name has no such extension. -/
def stripExt (l : List Char) : List Char :=
  let r := l.reverse
  let run := r.takeWhile Char.isAlphanum
  if run.isEmpty then l
  else
    match r.drop run.length with
    | '.' :: rest => rest.reverse
    | _ => l

/-- Pattern 1 of getReleaseGroup: a token of lowercase letters/digits right
after a dash, followed by a bracket, whitespace, or the end of the name.
The scan returns the leftmost such token. -/
def dashMatch (name : List Char) : Option (List Char) :=
  (tailsP none name).findSome? fun pu =>
    match pu.2 with
    | '-' :: v =>
      let run := v.takeWhile isLD
      if run.isEmpty then none
      else
        match v.drop run.length with
        | [] => some run
        | c :: _ => if c = '[' || isJsWs c then some run else none
    | _ => none

/-- One bracket-token attempt: `[` then a run of the bracket class then `]`;
`atEndOnly` additionally requires the closing bracket to end the name. -/
def bracketAt (atEndOnly : Bool) (u : List Char) : Option (List Char) :=
  match u with
  | '[' :: v =>
    let run := v.takeWhile isLDdot
    if run.isEmpty then none
    else
      match v.drop run.length with
      | ']' :: rest => if atEndOnly && !rest.isEmpty then none else some run
      | _ => none
  | _ => none

/-- Pattern 2 of getReleaseGroup: a bracketed token anchored at the start of
the name, or a bracketed token ending the name (leftmost occurrence). -/
def bracketMatch (name : List Char) : Option (List Char) :=
  (tailsP none name).findSome? fun pu =>
    match (if pu.1 = none then bracketAt false pu.2 else none) with
    | some r => some r
    | none => bracketAt true pu.2

/-- Technical tags skipped by the heuristic fallback of getReleaseGroup,
exactly as listed in the source (the comparisons there are against the
upper-cased word, so the mixed-case entries never match anything). -/
def releaseIgnored : List String :=
  ["REMUX", "BLURAY", "BDRIP", "BRRIP", "WEB-DL", "WEBRip", "WEBDL", "HDRIP",
   "DVDRIP", "HDTV", "PDTV", "CAM", "TS", "TC", "SCR", "1080P", "720P",
   "2160P", "4K", "UHD", "HDR", "DV", "X264", "H264", "X265", "HEVC", "AAC",
   "DDP5", "DDP2", "DD5", "AC3", "DTS", "INTERNAL", "REPACK", "PROPER",
   "LIMITED", "MULTI", "SUBS", "RO", "EN"]

/-- A bare 4-digit year. -/
def isYear (w : String) : Bool := w.length = 4 && w.toList.all isDig

/-- Trim ASCII whitespace from both ends. -/
def trimWs (l : List Char) : List Char :=
  ((l.dropWhile isJsWs).reverse.dropWhile isJsWs).reverse

/-- Separator characters replaced by spaces in getReleaseGroup pattern 3. -/
def isSep (c : Char) : Bool :=
  c = '.' || c = '-' || c = '_' || c = '[' || c = ']' || c = '(' || c = ')'

/-- The word list of getReleaseGroup pattern 3: separators become spaces,
the result is trimmed and split on whitespace runs. -/
def groupWords (name : List Char) : List String :=
  let spaced := name.map fun c => if isSep c then ' ' else c
  (((trimWs spaced).splitOnP isJsWs).filter fun w => !w.isEmpty).map String.mk

/-- Pattern 3 of getReleaseGroup: walk the last two words from the end and
return the first that is not a known technical tag, not a bare year, and at
least two characters long. -/
def heuristicGroup (name : List Char) : Option String :=
  ((groupWords name).reverse.take 2).findSome? fun w =>
    let word := strUpper w
    if !releaseIgnored.contains word && !isYear word && word.length ≥ 2 then some word
    else none

/-- getReleaseGroup from lib/matcher.js. -/
def getReleaseGroup (filename : String) : Option String :=
  if filename = "" then none
  else
    let name := lowerL (stripExt filename.toList)
    match dashMatch name with
    | some run => some (strUpper (String.mk run))
    | none =>
      match bracketMatch name with
      | some run => some (strUpper (String.mk run))
      | none => heuristicGroup name

/-- The fixed source/quality vocabulary of getQualityTags. -/
def qualityVocab : List String :=
  ["REMUX", "BluRay", "BDRip", "BRRip", "WEB-DL", "WEBRip", "WEBDL", "HDRip",
   "DVDRip", "HDTV", "PDTV", "CAM", "TS", "TC", "SCR"]

/-- getQualityTags from lib/matcher.js: every vocabulary tag whose
upper-cased form occurs in the upper-cased filename, upper-cased. -/
def getQualityTags (filename : String) : List String :=
  if filename = "" then []
  else
    let normalized := strUpper filename
    (qualityVocab.filter fun t => strIncludes (strUpper t) normalized).map strUpper

/-- The release-group signal of calculateMatchScore: both names yield equal
tokens, or the video's token occurs literally in the upper-cased candidate
name. -/
def hasGroupMatch (v c : String) : Bool :=
  let vG := getReleaseGroup v
  let sG := getReleaseGroup c
  (match vG, sG with
   | some a, some b => a = b
   | _, _ => false)
  || (match vG with
      | some a => strIncludes a (strUpper c)
      | none => false)

/-- The source-tag signal of calculateMatchScore: some tag of the video name
occurs in the upper-cased candidate name. -/
def hasSourceMatch (v c : String) : Bool :=
  (getQualityTags v).any fun tag => strIncludes tag (strUpper c)

/-- Math.round(x * 0.2) for the integer similarity scores 0–100: the exact
rational value x/5 is never a half-integer and the double-precision error is
far below the rounding margin, so round-half-up of x/5 is exact. -/
def jsRound02 (x : Nat) : Nat := (2 * x + 5) / 10

/-- calculateMatchScore from lib/matcher.js, parameterized by the external
fuzzball token_set_ratio similarity. -/
def calculateMatchScore (fuzz : String → String → Nat) (v c : String) : Nat :=
  if v = "" || c = "" then 0
  else
    let score1 := if hasGroupMatch v c then 0 + 50 else 0
    let score2 := if hasSourceMatch v c then score1 + 30 else score1
    let fuzzyScore := fuzz (strLower v) (strLower c)
    min 100 (score2 + min 20 (jsRound02 fuzzyScore))

/-- C2: for every similarity function and every pair of filenames the score
is an integer in [0,100]; it is 0 whenever either filename is empty; and on
nonempty filenames it equals the sum of the 50-point release-group bonus,
the 30-point source-tag bonus, and the fuzzy term min(20, round(fuzzy/5)) —
the final clamp at 100 never binds. -/
theorem calculateMatchScore_spec (fuzz : String → String → Nat) (v c : String) :
    calculateMatchScore fuzz v c ≤ 100
    ∧ ((v = "" ∨ c = "") → calculateMatchScore fuzz v c = 0)
    ∧ (v ≠ "" → c ≠ "" → calculateMatchScore fuzz v c
        = (if hasGroupMatch v c then 50 else 0)
          + (if hasSourceMatch v c then 30 else 0)
          + min 20 (jsRound02 (fuzz (strLower v) (strLower c)))) := by
  unfold calculateMatchScore
  by_cases hv : v = ""
  · simp [hv]
  · by_cases hc : c = ""
    · simp [hc]
    · have hne : (v = "" || c = "") = false := by simp [hv, hc]
      refine ⟨?_, ?_, ?_⟩
      · rw [hne]; simp only [Bool.false_eq_true, if_false]
        exact le_trans (min_le_left _ _) (le_refl 100)
      · intro h; rcases h with h | h; exact absurd h hv; exact absurd h hc
      · intro _ _
        rw [hne]
        simp only [Bool.false_eq_true, if_false]
        have hmin : min 20 (jsRound02 (fuzz (strLower v) (strLower c))) ≤ 20 :=
          min_le_left _ _
        rcases Bool.eq_false_or_eq_true (hasGroupMatch v c) with hg | hg <;>
          rcases Bool.eq_false_or_eq_true (hasSourceMatch v c) with hs | hs <;>
            simp only [hg, hs, if_true, Bool.false_eq_true, if_false] <;> omega

/-- C2 witness: a concrete matching pair (group and source agree, fuzzy 83
contributes round(83/5) = 17), and an empty-filename pair scoring 0. -/
theorem calculateMatchScore_spec_witness :
    calculateMatchScore (fun _ _ => 83) "Movie.Title.1080p.BluRay-GROUP.mkv"
      "Movie.Title.BluRay-GROUP.srt" = 97
    ∧ calculateMatchScore (fun _ _ => 83) "" "Movie.Title.BluRay-GROUP.srt" = 0 := by
  constructor
  · have h := (calculateMatchScore_spec (fun _ _ => 83) "Movie.Title.1080p.BluRay-GROUP.mkv"
      "Movie.Title.BluRay-GROUP.srt").2.2 (by decide) (by decide)
    rw [h]
    decide
  · exact (calculateMatchScore_spec (fun _ _ => 83) "" "Movie.Title.BluRay-GROUP.srt").2.1
      (Or.inl rfl)

/-! ## EpisodeMatcher (lib/matcher.js, matchesEpisode) -/

/-- The multilingual season words of the pattern tables. -/
def seasonWords : List String :=
  ["season", "sezon", "stagione", "saison", "staffel", "évad", "κύκλος", "temporada"]

/-- The multilingual episode words of the pattern tables. -/
def episodeWords : List String :=
  ["episode", "episod", "episodio", "épisode", "folge", "epizód", "επεισόδιο", "episódio"]

/-- One alternative of the season-indicator regex: `s` digits `e` digit. -/
def sdAlt : List Char → Bool
  | 's' :: v =>
    let ds := v.takeWhile isDig
    !ds.isEmpty &&
      (match v.drop ds.length with
       | 'e' :: c :: _ => isDig c
       | _ => false)
  | _ => false

/-- One alternative of the season-indicator regex: digit `x` digit (the
last digit of any digit run witnesses the full pattern). -/
def dxAlt : List Char → Bool
  | a :: 'x' :: b :: _ => isDig a && isDig b
  | _ => false

/-- One alternative of the season-indicator regex: a season word followed by
optional whitespace and a digit. -/
def kwSeasonAlt (u : List Char) : Bool :=
  seasonWords.any fun k =>
    match litP k.toList u with
    | some r =>
      match wsStar r with
      | c :: _ => isDig c
      | [] => false
    | none => false

/-- Does the text contain any season indicator at all? -/
def hasSeasonIndicator (t : List Char) : Bool :=
  existsPos t fun _ u => sdAlt u || dxAlt u || kwSeasonAlt u

/-- A literal (ending in a word character) followed by a word boundary. -/
def litThenBound (lit u : List Char) : Bool :=
  match litP lit u with
  | some r => boundAfterWord r
  | none => false

/-- The tail of the multilingual strict pattern: an episode word, optional
whitespace, then the episode-number literal. -/
def epTail (eNum : List Char) (u : List Char) : Bool :=
  episodeWords.any fun k =>
    match litP k.toList u with
    | some r => isPre eNum (wsStar r)
    | none => false

/-- Scan forward for the episode part of the multilingual strict pattern;
the non-greedy dot of the regex cannot cross a newline. -/
def findEpPart (eNum : List Char) : List Char → Bool
  | [] => false
  | c :: rest => epTail eNum (c :: rest) || (c ≠ '\n' && findEpPart eNum rest)

/-- The multilingual strict pattern: season word, whitespace, season number,
then (without crossing a newline) episode word, whitespace, episode
number. -/
def kwPairStrict (sNum eNum : List Char) (t : List Char) : Bool :=
  existsPos t fun _ u =>
    seasonWords.any fun k =>
      match litP k.toList u with
      | some r1 =>
        match litP sNum (wsStar r1) with
        | some r2 => findEpPart eNum r2
        | none => false
      | none => false

/-- The strict tier of matchesEpisode: all seven numeric season-episode
notations plus the two multilingual season-word/episode-word patterns. -/
def strictMatch (sPad sShort ePad eShort : List Char) (t : List Char) : Bool :=
  existsPos t (fun _ u => litThenBound ('s' :: sPad ++ 'e' :: ePad) u)
  || existsPos t (fun _ u => litThenBound ('s' :: sShort ++ 'e' :: eShort) u)
  || existsPos t (fun _ u => litThenBound ('s' :: sPad ++ 'e' :: eShort) u)
  || existsPos t (fun _ u => litThenBound ('s' :: sShort ++ 'e' :: ePad) u)
  || existsPos t (fun p u => jsBoundary p u.head? && litThenBound (sShort ++ 'x' :: ePad) u)
  || existsPos t (fun p u => jsBoundary p u.head? && litThenBound (sShort ++ 'x' :: eShort) u)
  || existsPos t (fun p u => jsBoundary p u.head? && litThenBound (sPad ++ 'x' :: ePad) u)
  || kwPairStrict sShort eShort t
  || kwPairStrict sPad ePad t

/-- The abbreviated episode-only notation: `ep` with an optional dot,
whitespace, the episode number, and word boundaries on both sides. -/
def epAbbrev (num : List Char) (p : Option Char) (u : List Char) : Bool :=
  jsBoundary p u.head? &&
    (match litP ['e', 'p'] u with
     | some r =>
       let r2 := match r with
                 | '.' :: rr => rr
                 | _ => r
       match litP num (wsStar r2) with
       | some r3 => boundAfterWord r3
       | none => false
     | none => false)

/-- The episode-word episode-only notation, with word boundaries. -/
def epKeyword (num : List Char) (p : Option Char) (u : List Char) : Bool :=
  jsBoundary p u.head? &&
    episodeWords.any fun k =>
      match litP k.toList u with
      | some r =>
        match litP num (wsStar r) with
        | some r2 => boundAfterWord r2
        | none => false
      | none => false

/-- Separator class before the bare zero-padded episode number. -/
def isEpSepL (c : Char) : Bool := c = '-' || c = '.' || c = '_' || isJsWs c

/-- Separator class after it (also an opening bracket). -/
def isEpSepR (c : Char) : Bool := isEpSepL c || c = '['

/-- The bare separated episode number pattern common in anime releases. -/
def epBare (ePad : List Char) : List Char → Bool
  | c1 :: v =>
    isEpSepL c1 &&
      (match litP ePad v with
       | some (c2 :: _) => isEpSepR c2
       | _ => false)
  | [] => false

/-- The permissive tier of matchesEpisode: episode-only notations. -/
def permissiveMatch (ePad eShort : List Char) (t : List Char) : Bool :=
  existsPos t (fun p u => jsBoundary p u.head? && litThenBound ('e' :: ePad) u)
  || existsPos t (fun p u => jsBoundary p u.head? && litThenBound ('e' :: eShort) u)
  || existsPos t (epAbbrev eShort)
  || existsPos t (epAbbrev ePad)
  || existsPos t (epKeyword eShort)
  || existsPos t (epKeyword ePad)
  || existsPos t (fun _ u => epBare ePad u)

/-- JS String(x).padStart(2, "0"). -/
def padTwo (s : String) : String :=
  if s.length = 0 then "00" else if s.length = 1 then "0" ++ s else s

/-- JS String(season): null stringifies to "null". -/
def seasonStr (season : Option Nat) : String :=
  match season with
  | none => "null"
  | some n => toString n

/-- The strict tier at the given season/episode numbers. -/
def strictFor (season : Option Nat) (episode : Nat) (t : List Char) : Bool :=
  strictMatch (padTwo (seasonStr season)).toList (seasonStr season).toList
    (padTwo (toString episode)).toList (toString episode).toList t

/-- The permissive tier at the given episode number. -/
def permissiveFor (episode : Nat) (t : List Char) : Bool :=
  permissiveMatch (padTwo (toString episode)).toList (toString episode).toList t

/-- matchesEpisode from lib/matcher.js. -/
def matchesEpisode (text : String) (season : Option Nat) (episode : Nat) : Bool :=
  if text = "" then false
  else
    let t := lowerL text.toList
    if hasSeasonIndicator t then strictFor season episode t
    else permissiveFor episode t

/-- C3: matchesEpisode implements the two-tier policy — with a season
indicator in the text the strict season+episode patterns decide, without
one the episode-only patterns decide — and on the spec's examples it
accepts S02E05 for (2,5), rejects it for (1,5), and accepts the bare
anime-style " 05." for episode 5 with no season. -/
theorem matchesEpisode_spec :
    (∀ (text : String) (season : Option Nat) (episode : Nat), text ≠ "" →
      matchesEpisode text season episode
        = if hasSeasonIndicator (lowerL text.toList)
          then strictFor season episode (lowerL text.toList)
          else permissiveFor episode (lowerL text.toList))
    ∧ matchesEpisode "Show.S02E05.720p" (some 2) 5 = true
    ∧ matchesEpisode "Show.S02E05.720p" (some 1) 5 = false
    ∧ matchesEpisode "AnimeShow - 05.mkv" none 5 = true := by
  refine ⟨?_, by decide, by decide, by decide⟩
  intro text season episode htext
  unfold matchesEpisode
  simp [htext]

/-- C3 witness: the permissive tier decides the anime-style example, via the
two-tier characterization at that concrete input. -/
theorem matchesEpisode_spec_witness :
    matchesEpisode "AnimeShow - 05.mkv" none 5
      = permissiveFor 5 (lowerL ("AnimeShow - 05.mkv").toList)
    ∧ matchesEpisode "AnimeShow - 05.mkv" none 5 = true := by
  have h := matchesEpisode_spec.1 "AnimeShow - 05.mkv" none 5 (by decide)
  refine ⟨?_, matchesEpisode_spec.2.2.2⟩
  rw [h]
  decide

/-! ## RateLimitedQueue (lib/rateLimiter.js) -/

/-- The axios error codes the retry classifier inspects. -/
inductive ErrCode where
  | ECONNRESET
  | ETIMEDOUT
  | ECONNABORTED
  | otherCode (s : String)
  deriving DecidableEq, Repr

/-- An axios failure: an optional transport error code and an optional HTTP
response status. -/
structure JsError where
  code : Option ErrCode
  status : Option Nat
  deriving DecidableEq, Repr

/-- The transient classification of executeRequest: connection reset,
timeout, or abort. -/
def isTransient (e : JsError) : Bool :=
  e.code = some .ECONNRESET || e.code = some .ETIMEDOUT || e.code = some .ECONNABORTED

/-- One enqueued request with its retry counter. -/
structure QRequest where
  url : String
  retries : Nat
  deriving DecidableEq, Repr

inductive LaneName where
  | search
  | download
  deriving DecidableEq, Repr

/-- The two queues of one credential's limiter, plus the count of download
items already executing. -/
structure LimiterQueues where
  searchQueue : List QRequest
  downloadQueue : List QRequest
  activeDownloads : Nat
  deriving DecidableEq, Repr

/-- How one executeRequest run affects the caller's promise. -/
inductive Settlement where
  | resolved (data : Nat)
  | rejected (e : JsError)
  | cancelled
  | pending
  deriving DecidableEq, Repr

/-- this.maxRetries of SubsRoRateLimiter. -/
def maxRetries : Nat := 2

/-- executeRequest from lib/rateLimiter.js, given the axios outcome: success
resolves; a transient failure under the retry ceiling re-inserts the bumped
request at the front of its own lane's queue without settling the caller;
anything else rejects with the error. -/
def executeRequest (st : LimiterQueues) (lane : LaneName) (req : QRequest)
    (response : Except JsError Nat) : LimiterQueues × Settlement :=
  match response with
  | .ok d => (st, .resolved d)
  | .error e =>
    if isTransient e && decide (req.retries < maxRetries) then
      let bumped : QRequest := { req with retries := req.retries + 1 }
      match lane with
      | .search => ({ st with searchQueue := bumped :: st.searchQueue }, .pending)
      | .download => ({ st with downloadQueue := bumped :: st.downloadQueue }, .pending)
    else
      (st, .rejected e)

/-- C4: a transient failure with fewer than 2 prior retries re-inserts the
request, with its counter bumped, at the front of its own lane's queue and
leaves the caller unsettled; a non-transient failure, or a transient one at
the ceiling, rejects immediately with the classified error and touches no
queue; success resolves. -/
theorem executeRequest_retry_spec (st : LimiterQueues) (lane : LaneName)
    (req : QRequest) (e : JsError) :
    (isTransient e = true → req.retries < maxRetries →
      executeRequest st lane req (.error e)
        = match lane with
          | .search =>
            ({ st with searchQueue := { req with retries := req.retries + 1 } :: st.searchQueue },
              .pending)
          | .download =>
            ({ st with downloadQueue := { req with retries := req.retries + 1 } :: st.downloadQueue },
              .pending))
    ∧ ((isTransient e = false ∨ maxRetries ≤ req.retries) →
        executeRequest st lane req (.error e) = (st, .rejected e))
    ∧ (∀ d, executeRequest st lane req (.ok d) = (st, .resolved d)) := by
  refine ⟨?_, ?_, fun d => rfl⟩
  · intro ht hr
    cases lane <;> simp [executeRequest, ht, hr]
  · intro h
    have hcond : (isTransient e && decide (req.retries < maxRetries)) = false := by
      rcases h with h | h
      · simp [h]
      · simp [Nat.not_lt.mpr h]
    cases lane <;> simp [executeRequest, hcond]

/-- C4 witness: a first timeout on an empty-lane state is re-queued at the
front of the search queue; a 401 failure is rejected unretried. -/
theorem executeRequest_retry_spec_witness :
    executeRequest ⟨[], [], 0⟩ .search ⟨"u", 0⟩
        (.error ⟨some .ETIMEDOUT, none⟩)
      = (⟨[⟨"u", 1⟩], [], 0⟩, .pending)
    ∧ executeRequest ⟨[], [], 0⟩ .download ⟨"u", 0⟩
        (.error ⟨none, some 401⟩)
      = (⟨[], [], 0⟩, .rejected ⟨none, some 401⟩) := by
  constructor
  · have h := (executeRequest_retry_spec ⟨[], [], 0⟩ .search ⟨"u", 0⟩
      ⟨some .ETIMEDOUT, none⟩).1 (by decide) (by decide)
    rw [h]
  · have h := (executeRequest_retry_spec ⟨[], [], 0⟩ .download ⟨"u", 0⟩
      ⟨none, some 401⟩).2.1 (Or.inl (by decide))
    rw [h]

/-- Modelled from the spec: the `clearQueues` operation that addon.js calls
on its limiter is not present in the src tree's lib/rateLimiter.js (only its
caller is).  Per the spec, a clear "drains both queues for a given state,
rejecting every not-yet-started pending item with a cancellation signal;
items already executing are unaffected and run to completion". -/
def clearQueues (st : LimiterQueues) : LimiterQueues × List (QRequest × Settlement) :=
  ({ st with searchQueue := [], downloadQueue := [] },
   (st.searchQueue ++ st.downloadQueue).map fun r => (r, .cancelled))

/-- C5: clearing rejects exactly the queued items of both lanes with the
cancellation signal, empties both queues, and leaves executing items alone;
with 3 items queued and 1 executing, exactly the 3 queued items are
rejected. -/
theorem clearQueues_spec :
    (∀ st : LimiterQueues,
      (clearQueues st).1.searchQueue = []
      ∧ (clearQueues st).1.downloadQueue = []
      ∧ (clearQueues st).1.activeDownloads = st.activeDownloads
      ∧ (clearQueues st).2
          = (st.searchQueue ++ st.downloadQueue).map (fun r => (r, Settlement.cancelled))
      ∧ (clearQueues st).2.length = st.searchQueue.length + st.downloadQueue.length
      ∧ ∀ rs ∈ (clearQueues st).2, rs.2 = Settlement.cancelled)
    ∧ (clearQueues ⟨[⟨"a", 0⟩], [⟨"b", 0⟩, ⟨"c", 0⟩], 1⟩).2.length = 3
    ∧ (clearQueues ⟨[⟨"a", 0⟩], [⟨"b", 0⟩, ⟨"c", 0⟩], 1⟩).1.activeDownloads = 1 := by
  refine ⟨?_, by decide, by decide⟩
  intro st
  refine ⟨rfl, rfl, rfl, rfl, by simp [clearQueues], ?_⟩
  intro rs hrs
  simp only [clearQueues, List.mem_map] at hrs
  obtain ⟨r, _, rfl⟩ := hrs
  rfl

/-! ## FetchCoordinator (addon.js, subtitlesHandler) -/

/-- One memoized pipeline answer: the served subtitle list (abstracted to
its payload), its creation time, and its outcome-dependent TTL. -/
structure CachedResult where
  data : List Nat
  timestamp : Nat
  ttl : Nat
  deriving DecidableEq, Repr

/-- Lookup in a JS Map modelled as an association list with unique keys. -/
def alookup {α : Type} (l : List (String × α)) (k : String) : Option α :=
  (l.find? fun p => p.1 = k).map Prod.snd

/-- JS Map.set: the new binding shadows and replaces any previous one. -/
def mapSet {α : Type} (l : List (String × α)) (k : String) (v : α) :
    List (String × α) :=
  (k, v) :: l.filter fun p => !(p.1 = k : Bool)

/-- JS Map.delete. -/
def mapDelete {α : Type} (l : List (String × α)) (k : String) : List (String × α) :=
  l.filter fun p => !(p.1 = k : Bool)

/-- The freshness test of the handler's cache check. -/
def freshAt (now : Nat) (c : Option CachedResult) : Bool :=
  match c with
  | some ce => now - ce.timestamp < ce.ttl
  | none => false

/-- The coordination state of subtitlesHandler: the result cache, the
in-flight map, the next pipeline-run identity, and a counter of upstream
search calls issued (each started run performs exactly one). -/
structure CoordState where
  cache : List (String × CachedResult)
  pending : List (String × Nat)
  nextRun : Nat
  searchCalls : Nat
  deriving DecidableEq, Repr

/-- What one handler invocation returns: a fresh cached answer, or the
promise of the (new or already in-flight) pipeline run it awaits. -/
inductive LookupOutcome where
  | cachedHit (data : List Nat)
  | attached (run : Nat)
  deriving DecidableEq, Repr

/-- The cache-miss continuation of subtitlesHandler: in-flight
de-duplication, then registration of a new run (which issues one upstream
search). -/
def arriveMiss (k : String) (st : CoordState) : CoordState × LookupOutcome :=
  match alookup st.pending k with
  | some r => (st, .attached r)
  | none =>
    ({ st with pending := mapSet st.pending k st.nextRun,
               nextRun := st.nextRun + 1,
               searchCalls := st.searchCalls + 1 }, .attached st.nextRun)

/-- The synchronous head of subtitlesHandler for one cache key: cache check,
then the miss continuation. -/
def arrive (k : String) (now : Nat) (st : CoordState) : CoordState × LookupOutcome :=
  match alookup st.cache k with
  | some ce =>
    if now - ce.timestamp < ce.ttl then (st, .cachedHit ce.data)
    else arriveMiss k st
  | none => arriveMiss k st

def CACHE_TTL : Nat := 15 * 60 * 1000

def EMPTY_CACHE_TTL : Nat := 60 * 1000

/-- The settlement of one pipeline run for key `k`: on success the result is
cached with the outcome-dependent TTL, on failure nothing is cached; in both
cases the finally block removes the in-flight marker. -/
def settle (k : String) (now : Nat) (result : Option (List Nat)) (st : CoordState) :
    CoordState :=
  let st1 :=
    match result with
    | some data =>
      let ce : CachedResult :=
        { data := data, timestamp := now,
          ttl := if data.length > 0 then CACHE_TTL else EMPTY_CACHE_TTL }
      { st with cache := mapSet st.cache k ce }
    | none => st
  { st1 with pending := mapDelete st1.pending k }

/-- `n` further identical handler invocations, in arrival order. -/
def arriveMany (k : String) (now : Nat) : Nat → CoordState → CoordState × List LookupOutcome
  | 0, st => (st, [])
  | n + 1, st =>
    let p := arrive k now st
    let q := arriveMany k now n p.1
    (q.1, p.2 :: q.2)

theorem alookup_mapSet_self {α : Type} (l : List (String × α)) (k : String) (v : α) :
    alookup (mapSet l k v) k = some v := by
  simp [alookup, mapSet, List.find?]

theorem alookup_mapDelete_self {α : Type} (l : List (String × α)) (k : String) :
    alookup (mapDelete l k) k = none := by
  have hfind : (mapDelete l k).find? (fun p => p.1 = k) = none := by
    apply List.find?_eq_none.mpr
    intro p hp
    have := List.of_mem_filter hp
    simpa using this
  simp [alookup, hfind]

theorem arrive_fixed (k : String) (now : Nat) (st : CoordState) (o : LookupOutcome)
    (h : arrive k now st = (st, o)) (n : Nat) :
    arriveMany k now n st = (st, List.replicate n o) := by
  induction n with
  | zero => rfl
  | succ m ih =>
    show (let p := arrive k now st
          let q := arriveMany k now m p.1
          (q.1, p.2 :: q.2)) = (st, List.replicate (m + 1) o)
    rw [h]
    simp only []
    rw [ih]
    rfl

/-- C1: when no fresh cached result and no in-flight run exist for a key,
the first invocation registers one run and issues exactly one upstream
search; every further invocation of the same key before settlement attaches
to that same run instance, changing nothing; and settlement — successful or
not — removes the in-flight marker. -/
theorem subtitlesHandler_dedup_spec (st0 : CoordState) (k : String) (now : Nat) (n : Nat)
    (hpend : alookup st0.pending k = none)
    (hcache : freshAt now (alookup st0.cache k) = false) :
    (arrive k now st0).2 = .attached st0.nextRun
    ∧ (arrive k now st0).1.searchCalls = st0.searchCalls + 1
    ∧ arriveMany k now n (arrive k now st0).1
        = ((arrive k now st0).1, List.replicate n (.attached st0.nextRun))
    ∧ (arriveMany k now n (arrive k now st0).1).1.searchCalls = st0.searchCalls + 1
    ∧ ∀ (result : Option (List Nat)) (now2 : Nat),
        alookup (settle k now2 result (arriveMany k now n (arrive k now st0).1).1).pending k
          = none := by
  have hmiss : arrive k now st0 = arriveMiss k st0 := by
    unfold arrive
    cases hc : alookup st0.cache k with
    | none => rfl
    | some ce =>
      simp only [freshAt, hc] at hcache
      simp [of_decide_eq_false hcache]
  have hrun : arrive k now st0
      = ({ st0 with pending := mapSet st0.pending k st0.nextRun,
                    nextRun := st0.nextRun + 1,
                    searchCalls := st0.searchCalls + 1 }, .attached st0.nextRun) := by
    rw [hmiss]
    unfold arriveMiss
    rw [hpend]
  have hfix : arrive k now (arrive k now st0).1
      = ((arrive k now st0).1, .attached st0.nextRun) := by
    rw [hrun]
    unfold arrive
    cases hc : alookup st0.cache k with
    | none =>
      unfold arriveMiss
      rw [alookup_mapSet_self]
    | some ce =>
      simp only [freshAt, hc] at hcache
      have hnot := of_decide_eq_false hcache
      simp only [eq_false hnot, if_false]
      unfold arriveMiss
      rw [alookup_mapSet_self]
  have hmany := arrive_fixed k now (arrive k now st0).1 (.attached st0.nextRun) hfix n
  refine ⟨by rw [hrun], by rw [hrun], hmany, ?_, ?_⟩
  · rw [hmany, hrun]
  · intro result now2
    rw [hmany]
    cases result <;> simp [settle, alookup_mapDelete_self]

/-- The empty coordination state. -/
def initCoord : CoordState := ⟨[], [], 0, 0⟩

/-- C1 witness: three identical concurrent invocations after the first all
attach to run 0, only one search is issued, and settling (with a failure)
clears the marker. -/
theorem subtitlesHandler_dedup_spec_witness :
    (arrive "tt0111161_all" 0 initCoord).2 = .attached 0
    ∧ (arriveMany "tt0111161_all" 0 3 (arrive "tt0111161_all" 0 initCoord).1).1.searchCalls = 1
    ∧ alookup (settle "tt0111161_all" 7 none
        (arriveMany "tt0111161_all" 0 3 (arrive "tt0111161_all" 0 initCoord).1).1).pending
        "tt0111161_all" = none := by
  have h := subtitlesHandler_dedup_spec initCoord "tt0111161_all" 0 3 rfl rfl
  exact ⟨h.1, h.2.2.2.1, h.2.2.2.2 none 7⟩

/-! ## CaptionTranscoder (lib/proxy.js, SRT to WebVTT conversion) -/

/-- The global replacement of CRLF by LF (leftmost, non-overlapping,
resuming after each replacement, as String.replace with the g flag). -/
def replaceCRLF : List Char → List Char
  | '\r' :: '\n' :: rest => '\n' :: replaceCRLF rest
  | c :: rest => c :: replaceCRLF rest
  | [] => []

/-- The global timestamp rewrite: every non-overlapping leftmost occurrence
of two-digit hours, minutes, seconds and a comma before three millisecond
digits has its comma replaced by a dot. -/
def rewriteTs : List Char → List Char
  | a :: b :: ':' :: c :: d :: ':' :: e :: f :: ',' :: x :: y :: z :: rest =>
    if isDig a && isDig b && isDig c && isDig d && isDig e && isDig f
        && isDig x && isDig y && isDig z then
      a :: b :: ':' :: c :: d :: ':' :: e :: f :: '.' :: x :: y :: z :: rewriteTs rest
    else a :: rewriteTs (b :: ':' :: c :: d :: ':' :: e :: f :: ',' :: x :: y :: z :: rest)
  | c :: rest => c :: rewriteTs rest
  | [] => []

/-- The transcoding step of the caption-delivery route: prepend the WebVTT
header, normalize CRLF, rewrite comma timestamps.  Total: no error path
exists once the text has been decoded. -/
def transcodeSrt (s : String) : String :=
  "WEBVTT\n\n" ++ String.mk (rewriteTs (replaceCRLF s.toList))

theorem replaceCRLF_no_cr (ch : Char) (hc : ch ≠ '\r') (rest : List Char) :
    replaceCRLF (ch :: rest) = ch :: replaceCRLF rest := by
  cases rest with
  | nil => simp [replaceCRLF]
  | cons c2 tl =>
    by_cases h2 : c2 = '\n'
    · subst h2
      simp [replaceCRLF, hc]
    · simp [replaceCRLF, hc, h2]

/-- C8: the transcoded output always begins with the WebVTT header token;
every well-formed comma timestamp block is rewritten to the dot form; a CRLF
after a CR-free prefix is normalized to LF; and the spec's concrete example
"00:01:02,345" is rewritten to "00:01:02.345" after the header. -/
theorem transcodeSrt_spec :
    (∀ s : String, ∃ rest : String, transcodeSrt s = "WEBVTT\n\n" ++ rest)
    ∧ (∀ a b c d e f x y z : Char,
        isDig a = true → isDig b = true → isDig c = true → isDig d = true →
        isDig e = true → isDig f = true → isDig x = true → isDig y = true →
        isDig z = true →
        rewriteTs [a, b, ':', c, d, ':', e, f, ',', x, y, z]
          = [a, b, ':', c, d, ':', e, f, '.', x, y, z])
    ∧ (∀ l1 l2 : List Char, '\r' ∉ l1 →
        replaceCRLF (l1 ++ '\r' :: '\n' :: l2) = l1 ++ '\n' :: replaceCRLF l2)
    ∧ transcodeSrt "00:01:02,345" = "WEBVTT\n\n00:01:02.345"
    ∧ transcodeSrt "1\r\n00:01:02,345 --> 00:01:03,400\r\nsubs\r\n"
        = "WEBVTT\n\n1\n00:01:02.345 --> 00:01:03.400\nsubs\n" := by
  refine ⟨fun s => ⟨String.mk (rewriteTs (replaceCRLF s.toList)), rfl⟩,
    ?_, ?_, by decide, by decide⟩
  · intro a b c d e f x y z ha hb hc hd he hf hx hy hz
    simp [rewriteTs, ha, hb, hc, hd, he, hf, hx, hy, hz]
  · intro l1 l2 hcr
    induction l1 with
    | nil => simp [replaceCRLF]
    | cons ch tl ih =>
      have hch : ch ≠ '\r' := fun h => hcr (h ▸ List.mem_cons_self ch tl)
      have htl : '\r' ∉ tl := fun h => hcr (List.mem_cons_of_mem ch h)
      rw [List.cons_append, replaceCRLF_no_cr ch hch, ih htl]
      rfl

/-- C8 witness: the general timestamp and CRLF parts at concrete inputs. -/
theorem transcodeSrt_spec_witness :
    rewriteTs ("00:01:02,345".toList) = "00:01:02.345".toList
    ∧ replaceCRLF ("ab\r\ncd".toList) = "ab\ncd".toList := by
  constructor
  · have h := transcodeSrt_spec.2.1 '0' '0' '0' '1' '0' '2' '3' '4' '5'
      rfl rfl rfl rfl rfl rfl rfl rfl rfl
    exact h
  · have h := transcodeSrt_spec.2.2.1 ['a', 'b'] ['c', 'd'] (by decide)
    rw [show ("ab\r\ncd".toList) = ['a', 'b'] ++ '\r' :: '\n' :: ['c', 'd'] by rfl, h]
    rfl

/-! ## CaptionCache (lib/proxy.js, bounded LRU VTT cache) -/

/-- One cached caption: the transcoded text and its insertion time. -/
structure VttItem where
  vtt : String
  timestamp : Nat
  deriving DecidableEq, Repr

/-- The split representation of the LRU cache: the backing map and the
recency order (oldest first), exactly the `_vttStore` / `_vttOrder` pair. -/
structure VttStore where
  store : List (String × VttItem)
  order : List String
  deriving DecidableEq, Repr

def VTT_CACHE_MAX_SIZE : Nat := 100

def VTT_TTL : Nat := 12 * 60 * 60 * 1000

/-- deleteVtt from lib/proxy.js. -/
def deleteVtt (key : String) (s : VttStore) : VttStore :=
  { store := mapDelete s.store key, order := s.order.erase key }

/-- The move-to-end step of getVtt (indexOf / splice / push). -/
def moveEnd (key : String) (order : List String) : List String :=
  if order.contains key then order.erase key ++ [key] else order

/-- getVtt from lib/proxy.js: a missing key is a miss; an expired entry is
deleted and reported as a miss; a fresh entry is moved to the
most-recently-used end and returned. -/
def getVtt (now : Nat) (key : String) (s : VttStore) : Option VttItem × VttStore :=
  match alookup s.store key with
  | none => (none, s)
  | some item =>
    if now - item.timestamp > VTT_TTL then (none, deleteVtt key s)
    else (some item, { s with order := moveEnd key s.order })

/-- The while loop of setVtt: as long as the order list has reached the
capacity, shift the oldest key and delete its entry. -/
def evictLoop (maxSize : Nat) :
    List String → List (String × VttItem) → List String × List (String × VttItem)
  | [], store => ([], store)
  | o :: rest, store =>
    if rest.length + 1 ≥ maxSize then evictLoop maxSize rest (mapDelete store o)
    else (o :: rest, store)

/-- setVtt from lib/proxy.js, with the capacity as an explicit parameter
(the source fixes it to VTT_CACHE_MAX_SIZE = 100). -/
def setVtt (maxSize now : Nat) (key vtt : String) (s : VttStore) : VttStore :=
  let order0 := if (alookup s.store key).isSome then s.order.erase key else s.order
  let p := evictLoop maxSize order0 s.store
  { store := mapSet p.2 key ⟨vtt, now⟩, order := p.1 ++ [key] }

/-- Well-formedness of the split LRU representation: the map's keys are a
permutation of the recency list, which has no duplicates. -/
def VttWF (s : VttStore) : Prop :=
  List.Perm (s.store.map Prod.fst) s.order ∧ s.order.Nodup

theorem keys_mapDelete {α : Type} (l : List (String × α)) (k : String) :
    (mapDelete l k).map Prod.fst = (l.map Prod.fst).filter (fun x => !(x = k : Bool)) := by
  induction l with
  | nil => rfl
  | cons p tl ih =>
    by_cases hp : p.1 = k <;> simp [mapDelete, List.filter_cons, hp] <;>
      simpa [mapDelete] using ih

theorem keys_mapSet {α : Type} (l : List (String × α)) (k : String) (v : α) :
    (mapSet l k v).map Prod.fst = k :: (l.map Prod.fst).filter (fun x => !(x = k : Bool)) := by
  simp only [mapSet, List.map_cons]
  exact congrArg (List.cons k) (keys_mapDelete l k)

theorem alookup_isSome_iff {α : Type} (l : List (String × α)) (k : String) :
    (alookup l k).isSome = true ↔ k ∈ l.map Prod.fst := by
  induction l with
  | nil => simp [alookup]
  | cons p tl ih =>
    unfold alookup at ih ⊢
    by_cases hp : p.1 = k
    · rw [List.find?_cons_of_pos _ (by simpa using hp)]
      simp [hp]
    · rw [List.find?_cons_of_neg _ (by simpa using hp)]
      simp only [List.map_cons, List.mem_cons]
      rw [ih]
      constructor
      · exact Or.inr
      · intro h
        rcases h with h | h
        · exact absurd h.symm hp
        · exact h

/-- The two Bool forms of "key differs" filters agree. -/
theorem filter_ne_conv (l : List String) (k : String) :
    l.filter (fun x => !(x = k : Bool)) = l.filter (fun x => x != k) := by
  apply List.filter_congr
  intro x _
  by_cases h : x = k <;> simp [h, bne]

theorem evictLoop_length_le (maxSize : Nat) (hms : 1 ≤ maxSize) :
    ∀ (ord : List String) (store : List (String × VttItem)),
      (evictLoop maxSize ord store).1.length ≤ maxSize - 1 := by
  intro ord
  induction ord with
  | nil =>
    intro store
    simp only [evictLoop, List.length_nil]
    omega
  | cons o rest ih =>
    intro store
    unfold evictLoop
    by_cases hcond : rest.length + 1 ≥ maxSize
    · simp only [hcond, if_true]
      exact ih _
    · simp only [hcond, if_false, List.length_cons]
      omega

theorem evictLoop_sublist (maxSize : Nat) :
    ∀ ord store, ((evictLoop maxSize ord store).1).Sublist ord := by
  intro ord
  induction ord with
  | nil =>
    intro store
    simp [evictLoop]
  | cons o rest ih =>
    intro store
    unfold evictLoop
    by_cases hcond : rest.length + 1 ≥ maxSize
    · simp only [hcond, if_true]
      exact (ih _).trans (List.sublist_cons_self o rest)
    · simp only [hcond, if_false]
      exact List.Sublist.refl _

theorem evictLoop_perm (maxSize : Nat) :
    ∀ (ord : List String) (store : List (String × VttItem)) (extra : List String),
      (store.map Prod.fst).Nodup →
      List.Perm (store.map Prod.fst) (extra ++ ord) →
      ord.Nodup → (∀ x ∈ extra, x ∉ ord) →
      List.Perm ((evictLoop maxSize ord store).2.map Prod.fst)
        (extra ++ (evictLoop maxSize ord store).1) := by
  intro ord
  induction ord with
  | nil =>
    intro store extra _ hperm _ _
    simpa [evictLoop] using hperm
  | cons o rest ih =>
    intro store extra hnd hperm hordnd hdisj
    unfold evictLoop
    by_cases hcond : rest.length + 1 ≥ maxSize
    · simp only [hcond, if_true]
      have hofst : o ∉ extra := fun hmem => hdisj o hmem (List.mem_cons_self o rest)
      have hkeydel : (mapDelete store o).map Prod.fst
          = (store.map Prod.fst).erase o := by
        rw [keys_mapDelete, filter_ne_conv, List.Nodup.erase_eq_filter hnd o]
      apply ih
      · rw [hkeydel]
        exact hnd.erase o
      · rw [hkeydel]
        have h1 : List.Perm ((store.map Prod.fst).erase o) ((extra ++ o :: rest).erase o) :=
          hperm.erase o
        rwa [List.erase_append_right _ hofst, List.erase_cons_head] at h1
      · exact (List.nodup_cons.mp hordnd).2
      · intro x hx
        exact fun hmem => hdisj x hx (List.mem_cons_of_mem o hmem)
    · simp only [hcond, if_false]
      exact hperm

theorem setVtt_wf (maxSize now : Nat) (key vtt : String) (s : VttStore)
    (hwf : VttWF s) (hms : 1 ≤ maxSize) :
    VttWF (setVtt maxSize now key vtt s)
    ∧ (setVtt maxSize now key vtt s).store.length ≤ maxSize := by
  obtain ⟨hperm, hnd⟩ := hwf
  have hkeysnd : (s.store.map Prod.fst).Nodup := hperm.nodup_iff.mpr hnd
  by_cases hk : (alookup s.store key).isSome = true
  · -- the key is already present: it is removed from the order list first
    have hkin : key ∈ s.store.map Prod.fst := (alookup_isSome_iff _ _).mp hk
    have hkord : key ∈ s.order := hperm.mem_iff.mp hkin
    have horder0 : (if (alookup s.store key).isSome then s.order.erase key else s.order)
        = s.order.erase key := if_pos hk
    have hperm0 : List.Perm (s.store.map Prod.fst) ([key] ++ s.order.erase key) := by
      exact hperm.trans (List.perm_cons_erase hkord)
    have hnd0 : (s.order.erase key).Nodup := hnd.erase key
    have hdisj0 : ∀ x ∈ [key], x ∉ s.order.erase key := by
      intro x hx
      rw [List.mem_singleton] at hx
      subst hx
      exact hnd.not_mem_erase
    have hp := evictLoop_perm maxSize (s.order.erase key) s.store [key] hkeysnd hperm0 hnd0 hdisj0
    have hsub := evictLoop_sublist maxSize (s.order.erase key) s.store
    have hlen := evictLoop_length_le maxSize hms (s.order.erase key) s.store
    set p := evictLoop maxSize (s.order.erase key) s.store with hpdef
    have hset : setVtt maxSize now key vtt s
        = { store := mapSet p.2 key ⟨vtt, now⟩, order := p.1 ++ [key] } := by
      rw [hpdef]
      simp only [setVtt, horder0]
    rw [hset]
    have hordRnd : p.1.Nodup := hnd0.sublist hsub
    have hknotR : key ∉ p.1 := fun hmem => hnd.not_mem_erase (hsub.mem hmem)
    have hkeysRnd : (p.2.map Prod.fst).Nodup := hp.nodup_iff.mpr (by
      rw [List.nodup_append]
      exact ⟨List.nodup_singleton key, hordRnd, by
        intro x hx
        rw [List.mem_singleton] at hx
        subst hx
        exact hknotR⟩)
    have hkeyset : (mapSet p.2 key ⟨vtt, now⟩).map Prod.fst
        = key :: (p.2.map Prod.fst).erase key := by
      rw [keys_mapSet, filter_ne_conv, List.Nodup.erase_eq_filter hkeysRnd key]
    have herase : List.Perm ((p.2.map Prod.fst).erase key) p.1 := by
      have := hp.erase key
      rwa [show ([key] ++ p.1).erase key = p.1 from List.erase_cons_head key p.1] at this
    constructor
    · constructor
      · show List.Perm ((mapSet p.2 key ⟨vtt, now⟩).map Prod.fst) (p.1 ++ [key])
        rw [hkeyset]
        exact ((herase.cons key).trans (List.perm_append_singleton key p.1).symm)
      · show (p.1 ++ [key]).Nodup
        rw [List.nodup_append]
        exact ⟨hordRnd, List.nodup_singleton key, by
          intro x hx
          rw [List.mem_singleton]
          exact fun hxx => hknotR (hxx ▸ hx)⟩
    · show (mapSet p.2 key ⟨vtt, now⟩).length ≤ maxSize
      have : (mapSet p.2 key ⟨vtt, now⟩).length
          = ((mapSet p.2 key ⟨vtt, now⟩).map Prod.fst).length := by
        rw [List.length_map]
      rw [this, hkeyset, List.length_cons, herase.length_eq]
      omega
  · -- the key is new
    have hknotin : key ∉ s.store.map Prod.fst := fun hmem =>
      hk ((alookup_isSome_iff _ _).mpr hmem)
    have horder0 : (if (alookup s.store key).isSome then s.order.erase key else s.order)
        = s.order := if_neg hk
    have hperm0 : List.Perm (s.store.map Prod.fst) ([] ++ s.order) := hperm
    have hdisj0 : ∀ x ∈ ([] : List String), x ∉ s.order := by
      intro x hx
      exact absurd hx (List.not_mem_nil x)
    have hp := evictLoop_perm maxSize s.order s.store [] hkeysnd hperm0 hnd hdisj0
    have hsub := evictLoop_sublist maxSize s.order s.store
    have hlen := evictLoop_length_le maxSize hms s.order s.store
    set p := evictLoop maxSize s.order s.store with hpdef
    have hset : setVtt maxSize now key vtt s
        = { store := mapSet p.2 key ⟨vtt, now⟩, order := p.1 ++ [key] } := by
      rw [hpdef]
      simp only [setVtt, horder0]
    rw [hset]
    rw [List.nil_append] at hp
    have hordRnd : p.1.Nodup := hnd.sublist hsub
    have hknotR : key ∉ p.1 := fun hmem => hknotin (hperm.mem_iff.mpr (hsub.mem hmem))
    have hknotKeys : key ∉ p.2.map Prod.fst := fun hmem => hknotR (hp.mem_iff.mp hmem)
    have hfilter : (p.2.map Prod.fst).filter (fun x => !(x = key : Bool))
        = p.2.map Prod.fst := by
      apply List.filter_eq_self.mpr
      intro x hx
      have hxk : x ≠ key := fun hxx => hknotKeys (hxx ▸ hx)
      simp [hxk]
    have hkeyset : (mapSet p.2 key ⟨vtt, now⟩).map Prod.fst = key :: p.2.map Prod.fst := by
      rw [keys_mapSet, hfilter]
    constructor
    · constructor
      · show List.Perm ((mapSet p.2 key ⟨vtt, now⟩).map Prod.fst) (p.1 ++ [key])
        rw [hkeyset]
        exact (hp.cons key).trans (List.perm_append_singleton key p.1).symm
      · show (p.1 ++ [key]).Nodup
        rw [List.nodup_append]
        exact ⟨hordRnd, List.nodup_singleton key, by
          intro x hx
          rw [List.mem_singleton]
          exact fun hxx => hknotR (hxx ▸ hx)⟩
    · show (mapSet p.2 key ⟨vtt, now⟩).length ≤ maxSize
      have : (mapSet p.2 key ⟨vtt, now⟩).length
          = ((mapSet p.2 key ⟨vtt, now⟩).map Prod.fst).length := by
        rw [List.length_map]
      rw [this, hkeyset, List.length_cons, hp.length_eq]
      omega

theorem getVtt_wf (now : Nat) (key : String) (s : VttStore) (hwf : VttWF s) :
    VttWF (getVtt now key s).2
    ∧ (getVtt now key s).2.store.length ≤ s.store.length := by
  obtain ⟨hperm, hnd⟩ := hwf
  unfold getVtt
  cases halo : alookup s.store key with
  | none => exact ⟨⟨hperm, hnd⟩, le_refl _⟩
  | some item =>
    by_cases hexp : now - item.timestamp > VTT_TTL
    · simp only [hexp, if_true]
      refine ⟨⟨?_, hnd.erase key⟩, ?_⟩
      · show List.Perm ((mapDelete s.store key).map Prod.fst) (s.order.erase key)
        have hkeysnd : (s.store.map Prod.fst).Nodup := hperm.nodup_iff.mpr hnd
        rw [keys_mapDelete, filter_ne_conv, ← List.Nodup.erase_eq_filter hkeysnd key]
        exact hperm.erase key
      · show (mapDelete s.store key).length ≤ s.store.length
        exact List.length_filter_le _ _
    · simp only [hexp, if_false]
      refine ⟨⟨?_, ?_⟩, le_refl _⟩
      · show List.Perm (s.store.map Prod.fst) (moveEnd key s.order)
        unfold moveEnd
        by_cases hmem : s.order.contains key
        · simp only [hmem, if_true]
          have hkord : key ∈ s.order := by
            simpa using hmem
          exact (hperm.trans (List.perm_cons_erase hkord)).trans
            (List.perm_append_singleton key (s.order.erase key)).symm
        · simp only [hmem, if_false]
          exact hperm
      · show (moveEnd key s.order).Nodup
        unfold moveEnd
        by_cases hmem : s.order.contains key
        · simp only [hmem, if_true]
          rw [List.nodup_append]
          exact ⟨hnd.erase key, List.nodup_singleton key, by
            intro x hx
            rw [List.mem_singleton]
            exact fun hxx => hnd.not_mem_erase (hxx ▸ hx)⟩
        · simp only [hmem, if_false]
          exact hnd

/-- C9: the caption cache with capacity K keeps a well-formed store of at
most K entries across insertions and reads, and with capacity 2 inserting
A, B, C evicts the least-recently-used A: reading A misses while B and C
hit. -/
theorem captionCache_lru_spec :
    (∀ (maxSize now : Nat) (key vtt : String) (s : VttStore),
      VttWF s → 1 ≤ maxSize →
      VttWF (setVtt maxSize now key vtt s)
      ∧ (setVtt maxSize now key vtt s).store.length ≤ maxSize)
    ∧ (∀ (now : Nat) (key : String) (s : VttStore),
      VttWF s →
      VttWF (getVtt now key s).2
      ∧ (getVtt now key s).2.store.length ≤ s.store.length)
    ∧ ((getVtt 0 "A" (setVtt 2 0 "C" "c" (setVtt 2 0 "B" "b"
          (setVtt 2 0 "A" "a" ⟨[], []⟩)))).1 = none
      ∧ (getVtt 0 "B" (setVtt 2 0 "C" "c" (setVtt 2 0 "B" "b"
          (setVtt 2 0 "A" "a" ⟨[], []⟩)))).1 = some ⟨"b", 0⟩
      ∧ (getVtt 0 "C" (setVtt 2 0 "C" "c" (setVtt 2 0 "B" "b"
          (setVtt 2 0 "A" "a" ⟨[], []⟩)))).1 = some ⟨"c", 0⟩
      ∧ (setVtt 2 0 "C" "c" (setVtt 2 0 "B" "b"
          (setVtt 2 0 "A" "a" ⟨[], []⟩))).store.length = 2
      ∧ (setVtt 2 0 "C" "c" (setVtt 2 0 "B" "b"
          (setVtt 2 0 "A" "a" ⟨[], []⟩))).order = ["B", "C"]) := by
  exact ⟨setVtt_wf, getVtt_wf, by decide, by decide, by decide, by decide, by decide⟩

/-- C9 witness: the bound theorem applied to a concrete one-entry store at
capacity 2. -/
theorem captionCache_lru_spec_witness :
    VttWF (setVtt 2 0 "B" "b" ⟨[("A", ⟨"a", 0⟩)], ["A"]⟩)
    ∧ (setVtt 2 0 "B" "b" ⟨[("A", ⟨"a", 0⟩)], ["A"]⟩).store.length ≤ 2 :=
  captionCache_lru_spec.1 2 0 "B" "b" ⟨[("A", ⟨"a", 0⟩)], ["A"]⟩
    ⟨List.Perm.refl _, by decide⟩ (by decide)

/-! ## Caption-delivery route (lib/proxy.js router handler) -/

/-- The observable side effects of one delivery request, in program order. -/
inductive ProxyEffect where
  | vttCacheRead (key : String)
  | vttCacheWrite (key : String)
  | archiveCacheRead (key : String)
  | archiveCacheWrite (key : String)
  | download (subId : String)
  deriving DecidableEq, Repr

/-- One ARCHIVE_CACHE entry: the raw buffer (when kept), the sniffed
container type, and the enumerated caption paths. -/
structure ArchiveCacheEntry where
  buffer : Option ArchiveBuffer
  archiveType : ArchiveType
  srtFiles : List String
  deriving DecidableEq, Repr

/-- The ambient state and external collaborators of one delivery request:
the clock, both caches, the (rate-limited) download outcome this request
would observe, the jschardet+iconv text decoding, and the base64url path
decoding. -/
structure ProxyCtx where
  now : Nat
  vtt : VttStore
  archive : List (String × ArchiveCacheEntry)
  downloadResult : Except JsError ArchiveBuffer
  decodeBytes : List Nat → String
  decodeB64 : String → Option String

/-- The response plus the effect trace and the caches after the request. -/
structure ProxyResult where
  status : Nat
  body : Option String
  effects : List ProxyEffect
  vtt : VttStore
  archive : List (String × ArchiveCacheEntry)

/-- The route's identifier validation /^d+$/: nonempty, all digits. -/
def isDigitId (s : String) : Bool := !s.isEmpty && s.toList.all isDig

/-- The extraction/transcoding/caching tail of the route, once an archive
buffer is at hand. -/
def deliverFromBuffer (ctx : ProxyCtx) (vttCacheKey srtPath : String)
    (buf : ArchiveBuffer) (effects : List ProxyEffect) (vtt1 : VttStore)
    (arch1 : List (String × ArchiveCacheEntry)) : ProxyResult :=
  match extractSrtFile buf srtPath with
  | none =>
    { status := 404, body := some "SRT file not found in archive",
      effects := effects, vtt := vtt1, archive := arch1 }
  | some content =>
    let vttText := transcodeSrt (ctx.decodeBytes content)
    { status := 200, body := some vttText,
      effects := effects ++ [.vttCacheWrite vttCacheKey],
      vtt := setVtt VTT_CACHE_MAX_SIZE ctx.now vttCacheKey vttText vtt1,
      archive := arch1 }

/-- The download branch of the route: a failure is surfaced with the
response status (500 when absent); a success caches the buffer with its
sniffed type and listing, then extracts. -/
def downloadAndDeliver (ctx : ProxyCtx) (subId cacheKey vttCacheKey srtPath : String)
    (effects : List ProxyEffect) (vtt1 : VttStore) : ProxyResult :=
  match ctx.downloadResult with
  | .error e =>
    { status := e.status.getD 500, body := some "Proxy error",
      effects := effects ++ [.download subId], vtt := vtt1, archive := ctx.archive }
  | .ok buf =>
    let entry : ArchiveCacheEntry :=
      { buffer := some buf, archiveType := getArchiveType buf.bytes,
        srtFiles := listSrtFiles buf }
    deliverFromBuffer ctx vttCacheKey srtPath buf
      (effects ++ [.download subId, .archiveCacheWrite cacheKey]) vtt1
      (mapSet ctx.archive cacheKey entry)

/-- The caption-delivery route of lib/proxy.js: validate the identifier,
decode the entry path, consult the VTT cache, then the archive cache, then
download; extract, transcode, and cache the result. -/
def proxyHandler (subId encodedSrtPath : String) (ctx : ProxyCtx) : ProxyResult :=
  if !(isDigitId subId) then
    { status := 400, body := some "Invalid subtitle ID", effects := [],
      vtt := ctx.vtt, archive := ctx.archive }
  else
    match ctx.decodeB64 encodedSrtPath with
    | none =>
      { status := 400, body := some "Invalid SRT path encoding", effects := [],
        vtt := ctx.vtt, archive := ctx.archive }
    | some srtPath =>
      let vttCacheKey := subId ++ "_" ++ encodedSrtPath
      let g := getVtt ctx.now vttCacheKey ctx.vtt
      match g.1 with
      | some item =>
        { status := 200, body := some item.vtt,
          effects := [.vttCacheRead vttCacheKey], vtt := g.2, archive := ctx.archive }
      | none =>
        let cacheKey := "archive_" ++ subId
        let effs0 := [ProxyEffect.vttCacheRead vttCacheKey, .archiveCacheRead cacheKey]
        match alookup ctx.archive cacheKey with
        | some ce =>
          match ce.buffer with
          | some buf => deliverFromBuffer ctx vttCacheKey srtPath buf effs0 g.2 ctx.archive
          | none => downloadAndDeliver ctx subId cacheKey vttCacheKey srtPath effs0 g.2
        | none => downloadAndDeliver ctx subId cacheKey vttCacheKey srtPath effs0 g.2

/-- C10: when the archive identifier is not a nonempty string of decimal
digits, the delivery route answers 400 at once — the effect trace is empty
(no cache read or write, no download) and both caches are unchanged. -/
theorem proxyHandler_invalid_id_spec (subId encodedSrtPath : String)
    (ctx : ProxyCtx) (h : isDigitId subId = false) :
    proxyHandler subId encodedSrtPath ctx
      = { status := 400, body := some "Invalid subtitle ID", effects := [],
          vtt := ctx.vtt, archive := ctx.archive } := by
  unfold proxyHandler
  simp [h]

/-- C10 witness: the malformed identifier "12a" on a concrete context. -/
theorem proxyHandler_invalid_id_spec_witness :
    (proxyHandler "12a" "enc"
        ⟨0, ⟨[], []⟩, [], .error ⟨none, none⟩, fun _ => "", fun _ => none⟩).status = 400
    ∧ (proxyHandler "12a" "enc"
        ⟨0, ⟨[], []⟩, [], .error ⟨none, none⟩, fun _ => "", fun _ => none⟩).effects = [] := by
  have h := proxyHandler_invalid_id_spec "12a" "enc"
    ⟨0, ⟨[], []⟩, [], .error ⟨none, none⟩, fun _ => "", fun _ => none⟩ (by decide)
  rw [h]
  exact ⟨rfl, rfl⟩

end SubsRo
